import Mathlib

/-!
Verification of the scheduled interception orchestrator
(`chrome-extension-scheduler`): a shallow embedding of the schedule clock,
the URL match predicates, the JSON extraction engine, the batch dispatcher
and the per-schedule claiming discipline, each translated from the
TypeScript source, together with theorems settling the specification's
claims about them.

Conventions: JavaScript `Date` values are embedded as `Int` millisecond
timestamps; `undefined`/absent values as `Option`; code that throws as
`Except`/`Option`.  External collaborators (the `cron-parser` npm package,
the Chrome tab platform) enter as explicit function parameters.
-/

/-! ## Data model (src/chrome-extension-scheduler/src/types/index.ts) -/

/-- Schedule kind, from `type: 'cron' | 'interval' | 'once'` in types/index.ts. -/
inductive ScheduleType
  | cron
  | interval
  | once
  deriving DecidableEq, Repr

/-- The `Schedule` interface of types/index.ts.  `Date` fields are `Int`
millisecond timestamps; optional fields are `Option`. -/
structure Schedule where
  id : String
  linkId : String
  name : String
  type : ScheduleType
  cronExpression : Option String
  intervalMinutes : Option Int
  oneTimeDate : Option Int
  quantity : Nat
  enabled : Bool
  createdAt : Int
  nextRun : Int
  lastRun : Option Int
  deriving DecidableEq, Repr

/-! ## Schedule Clock (src/unnamed/part_009, `src/utils/scheduler-engine.ts`) -/

/-- Embeds `SchedulerEngine.isScheduleDue` (part_009 lines 39-42):
`schedule.enabled && schedule.nextRun <= now`.  The source reads `now` from
`new Date()`; it is passed explicitly here. -/
def SchedulerEngine.isScheduleDue (s : Schedule) (now : Int) : Bool :=
  s.enabled && decide (s.nextRun ≤ now)

/-- Embeds `SchedulerEngine.calculateNextRun` (part_009 lines 6-37).  The `cron`
branch delegates to the external `cron-parser` package, embedded as the
parameter `cronNext` (`none` = the parser rejects the expression).  JS
falsiness of the guards `!schedule.cronExpression`, `!schedule.intervalMinutes`
is modelled exactly: a missing or empty cron expression and a missing or
zero `intervalMinutes` throw. -/
def SchedulerEngine.calculateNextRun (cronNext : String → Option Int)
    (s : Schedule) (now : Int) : Except String Int :=
  match s.type with
  | .cron =>
      match s.cronExpression with
      | none => .error "Cron expression is required for cron type"
      | some expr =>
          if expr = "" then .error "Cron expression is required for cron type"
          else
            match cronNext expr with
            | some t => .ok t
            | none => .error ("Invalid cron expression: " ++ expr)
  | .interval =>
      match s.intervalMinutes with
      | none => .error "Interval minutes is required for interval type"
      | some m =>
          if m = 0 then .error "Interval minutes is required for interval type"
          else .ok (now + m * 60 * 1000)
  | .once =>
      match s.oneTimeDate with
      | none => .error "One time date is required for once type"
      | some d => .ok d

/-! ## ScheduleRepository (src/chrome-extension-scheduler/src/storage/repositories.ts) -/

/-- Embeds `ScheduleRepository.updateNextRun` (repositories.ts lines 122-127):
`db.schedules.update(id, { nextRun, lastRun: new Date() })`.  Dexie's
`update` merges the given fields into the stored record; embedded as the
record update it performs on the schedule with that id.  `now` is the
`new Date()` the source takes. -/
def ScheduleRepository.updateNextRun (s : Schedule) (nextRun now : Int) : Schedule :=
  { s with nextRun := nextRun, lastRun := some now }

/-! ## Claim C6, C8, C10 theorems -/

/-- C6: for every schedule and every timestamp `now`, `isScheduleDue` returns
true if and only if the schedule is enabled and its `nextRun` timestamp is at
most `now`.  (`isScheduleDue` is a pure function of its arguments — the
source reads fields only and mutates nothing.) -/
theorem isScheduleDue_iff (s : Schedule) (now : Int) :
    SchedulerEngine.isScheduleDue s now = true ↔ (s.enabled = true ∧ s.nextRun ≤ now) := by
  simp [SchedulerEngine.isScheduleDue]

/-- C8 counterexample: a schedule of kind `interval` whose `intervalMinutes`
parameter is `-1` (a value the `number`-typed field admits and the
`!schedule.intervalMinutes` guard accepts) gets a next run of
`now - 60000`, strictly in the past relative to `now` — refuting
"the returned timestamp is never in the past relative to now". -/
theorem calculateNextRun_interval_negative_is_past :
    SchedulerEngine.calculateNextRun (fun _ => none)
      { id := "s1", linkId := "l1", name := "neg", type := .interval,
        cronExpression := none, intervalMinutes := some (-1), oneTimeDate := none,
        quantity := 1, enabled := true, createdAt := 0, nextRun := 0, lastRun := none }
      1000 = .ok (1000 + (-1) * 60 * 1000) ∧ (1000 : Int) + (-1) * 60 * 1000 < 1000 := by
  constructor
  · rfl
  · decide

/-- C8 (amended): for every schedule of kind `interval` whose
`intervalMinutes` is present and nonzero (the JS truthiness guard),
`calculateNextRun` returns exactly `now + intervalMinutes * 60 * 1000`; the
result is not in the past whenever `intervalMinutes` is at least 1. -/
theorem calculateNextRun_interval_eq (cronNext : String → Option Int)
    (s : Schedule) (now m : Int) (htype : s.type = .interval)
    (hm : s.intervalMinutes = some m) (hnz : m ≠ 0) :
    SchedulerEngine.calculateNextRun cronNext s now = .ok (now + m * 60 * 1000) ∧
      (1 ≤ m → now ≤ now + m * 60 * 1000) := by
  constructor
  · simp [SchedulerEngine.calculateNextRun, htype, hm, hnz]
  · intro h1
    nlinarith

/-- Witness for C8's amended theorem at a concrete interval schedule with
`intervalMinutes = 5` and `now = 1000`. -/
theorem calculateNextRun_interval_eq_witness :
    SchedulerEngine.calculateNextRun (fun _ => none)
      { id := "s2", linkId := "l1", name := "five", type := .interval,
        cronExpression := none, intervalMinutes := some 5, oneTimeDate := none,
        quantity := 1, enabled := true, createdAt := 0, nextRun := 0, lastRun := none }
      1000 = .ok (1000 + 5 * 60 * 1000) ∧
      ((1 : Int) ≤ 5 → (1000 : Int) ≤ 1000 + 5 * 60 * 1000) :=
  calculateNextRun_interval_eq (fun _ => none) _ 1000 5 rfl rfl (by decide)

/-- C10: `ScheduleRepository.updateNextRun` sets `nextRun` to the given
timestamp, sets `lastRun` to the current time, and leaves every other
schedule field (`id`, `linkId`, `name`, `type`, `cronExpression`,
`intervalMinutes`, `oneTimeDate`, `quantity`, `enabled`, `createdAt`)
unchanged. -/
theorem updateNextRun_spec (s : Schedule) (ts now : Int) :
    (ScheduleRepository.updateNextRun s ts now).nextRun = ts ∧
    (ScheduleRepository.updateNextRun s ts now).lastRun = some now ∧
    (ScheduleRepository.updateNextRun s ts now).id = s.id ∧
    (ScheduleRepository.updateNextRun s ts now).linkId = s.linkId ∧
    (ScheduleRepository.updateNextRun s ts now).name = s.name ∧
    (ScheduleRepository.updateNextRun s ts now).type = s.type ∧
    (ScheduleRepository.updateNextRun s ts now).cronExpression = s.cronExpression ∧
    (ScheduleRepository.updateNextRun s ts now).intervalMinutes = s.intervalMinutes ∧
    (ScheduleRepository.updateNextRun s ts now).oneTimeDate = s.oneTimeDate ∧
    (ScheduleRepository.updateNextRun s ts now).quantity = s.quantity ∧
    (ScheduleRepository.updateNextRun s ts now).enabled = s.enabled ∧
    (ScheduleRepository.updateNextRun s ts now).createdAt = s.createdAt := by
  refine ⟨rfl, rfl, rfl, rfl, rfl, rfl, rfl, rfl, rfl, rfl, rfl, rfl⟩

/-! ## String containment (JS `String.prototype.includes` and friends)

The hooks' URL predicates are built on JS string operations; these are
embedded on `List Char` so the characterization lemmas can be proved by
induction. -/

/-- Whether the first list starts with the second (JS `startsWith`). -/
def charsHavePre : List Char → List Char → Bool
  | _, [] => true
  | [], _ :: _ => false
  | a :: as, b :: bs => (a == b) && charsHavePre as bs

/-- Whether the second list occurs contiguously inside the first
(JS `includes`). -/
def charsContain : List Char → List Char → Bool
  | [], pat => pat.isEmpty
  | a :: as, pat => charsHavePre (a :: as) pat || charsContain as pat

/-- JS `s.includes(pat)`. -/
def strIncludes (s pat : String) : Bool := charsContain s.data pat.data

/-- JS `s.endsWith(pat)`. -/
def strEndsWith (s pat : String) : Bool := charsHavePre s.data.reverse pat.data.reverse

/-- JS `s.toLowerCase()` (ASCII range, which covers every configured pattern). -/
def strToLower (s : String) : String := ⟨s.data.map Char.toLower⟩

/-- JS `s.split('?')[0]`: the part of the string before the first `?`. -/
def beforeQuery (s : String) : String := ⟨s.data.takeWhile (· ≠ '?')⟩

/-- ASCII whitespace, for `strTrim`. -/
def charIsWS (c : Char) : Bool := c == ' ' || c == '\t' || c == '\n' || c == '\r'

/-- JS `s.trim()` (ASCII whitespace, which covers the configured pattern). -/
def strTrim (s : String) : String :=
  ⟨((s.data.dropWhile charIsWS).reverse.dropWhile charIsWS).reverse⟩

theorem charsHavePre_iff (p : List Char) : ∀ s, charsHavePre s p = true ↔ ∃ t, s = p ++ t := by
  induction p with
  | nil => intro s; simp [charsHavePre]
  | cons b bs ih =>
    intro s
    cases s with
    | nil => simp [charsHavePre]
    | cons a as =>
      simp only [charsHavePre, Bool.and_eq_true, beq_iff_eq, ih, List.cons_append,
        List.cons.injEq]
      constructor
      · rintro ⟨rfl, t, rfl⟩
        exact ⟨t, rfl, rfl⟩
      · rintro ⟨t, rfl, rfl⟩
        exact ⟨rfl, t, rfl⟩

theorem charsContain_iff (p : List Char) :
    ∀ s, charsContain s p = true ↔ ∃ u t, s = u ++ (p ++ t) := by
  intro s
  induction s with
  | nil =>
    simp only [charsContain, List.isEmpty_iff]
    constructor
    · rintro rfl
      exact ⟨[], [], rfl⟩
    · rintro ⟨u, t, h⟩
      rcases List.append_eq_nil.mp h.symm with ⟨rfl, h2⟩
      exact (List.append_eq_nil.mp h2).1
  | cons a as ih =>
    simp only [charsContain, Bool.or_eq_true, charsHavePre_iff, ih]
    constructor
    · rintro (⟨t, ht⟩ | ⟨u, t, ht⟩)
      · exact ⟨[], t, by simpa using ht⟩
      · exact ⟨a :: u, t, by simp [ht]⟩
    · rintro ⟨u, t, h⟩
      cases u with
      | nil => exact Or.inl ⟨t, by simpa using h⟩
      | cons c u' =>
        rcases List.cons_eq_cons.mp h with ⟨rfl, h2⟩
        exact Or.inr ⟨u', t, h2⟩

theorem strIncludes_toLower (s pat : String) (h : strIncludes s pat = true) :
    strIncludes (strToLower s) (strToLower pat) = true := by
  rcases (charsContain_iff pat.data s.data).mp h with ⟨u, t, hu⟩
  refine (charsContain_iff _ _).mpr ⟨u.map Char.toLower, t.map Char.toLower, ?_⟩
  have hs : (strToLower s).data = s.data.map Char.toLower := rfl
  have hp : (strToLower pat).data = pat.data.map Char.toLower := rfl
  rw [hs, hp, hu]
  simp [List.map_append]

theorem strEndsWith_includes (s pat : String) (h : strEndsWith s pat = true) :
    strIncludes s pat = true := by
  rcases (charsHavePre_iff pat.data.reverse s.data.reverse).mp h with ⟨t, ht⟩
  refine (charsContain_iff _ _).mpr ⟨t.reverse, [], ?_⟩
  have := congrArg List.reverse ht
  simpa using this

theorem beforeQuery_includes (s pat : String) (h : strIncludes (beforeQuery s) pat = true) :
    strIncludes s pat = true := by
  rcases (charsContain_iff pat.data (beforeQuery s).data).mp h with ⟨u, t, hu⟩
  have hb : (beforeQuery s).data = s.data.takeWhile (· ≠ '?') := rfl
  have hsplit : s.data.takeWhile (· ≠ '?') ++ s.data.dropWhile (· ≠ '?') = s.data :=
    List.takeWhile_append_dropWhile _ _
  refine (charsContain_iff _ _).mpr ⟨u, t ++ s.data.dropWhile (· ≠ '?'), ?_⟩
  calc s.data
      = (beforeQuery s).data ++ s.data.dropWhile (· ≠ '?') := by rw [hb]; exact hsplit.symm
    _ = (u ++ (pat.data ++ t)) ++ s.data.dropWhile (· ≠ '?') := by rw [hu]
    _ = u ++ (pat.data ++ (t ++ s.data.dropWhile (· ≠ '?'))) := by simp [List.append_assoc]

theorem strIncludes_self (s : String) : strIncludes s s = true :=
  (charsContain_iff _ _).mpr ⟨[], [], by simp⟩

/-! ## Tracking configuration (src/chrome-extension-scheduler/src/utils/default-system-settings.ts) -/

/-- The configured primary tracking pattern. -/
def TRACKING_STOCK_LINK : String := "https://shopee.vn/api/v4/pdp/get_pc"

/-- The fixed fallback list of alternate patterns. -/
def ALTERNATIVE_TRACKING_PATTERNS : List String :=
  ["/api/v4/pdp/get_pc", "api/v4/pdp/get_pc", "/api/v4/item/get",
   "api/v4/item/get", "/api/v4/product/", "api/v4/product/"]

/-! ## URL match predicates -/

/-- Embeds `BackgroundManager.shouldTrackUrl` (background.ts lines 586-603):
containment of the primary pattern, else containment of any alternate. -/
def BackgroundManager.shouldTrackUrl (url : String) : Bool :=
  strIncludes url TRACKING_STOCK_LINK ||
    ALTERNATIVE_TRACKING_PATTERNS.any (fun pattern => strIncludes url pattern)

/-- Embeds `RequestTracker.shouldTrackUrl` (request-tracker.ts lines 690-716): the
content-script hook's predicate; same primary-then-alternates logic (its
try/catch wraps operations that cannot throw). -/
def RequestTracker.shouldTrackUrl (url : String) : Bool :=
  strIncludes url TRACKING_STOCK_LINK ||
    ALTERNATIVE_TRACKING_PATTERNS.any (fun pattern => strIncludes url pattern)

/-- The heuristic API-path substrings of the popup predicate's fallback
branch (popup.tsx line 800). -/
def API_FALLBACK_PATTERNS : List String :=
  ["api/", "/api", "ajax", ".php", "json", "rest/", "/rest"]

/-- Embeds `BackgroundScheduler.shouldTrackUrl` (popup.tsx lines 794-820), with the
configured pattern (the imported `TRACKING_STOCK_LINK`) as an explicit
parameter so that the unconfigured branch is expressible.  When a pattern is
configured: `exact` equality, containment, case-insensitive containment,
`endsWith`, or containment in the part before `?`. -/
def BackgroundScheduler.shouldTrackUrlWith (trackingStockLink url : String) : Bool :=
  if trackingStockLink == "" || strTrim trackingStockLink == "" then
    API_FALLBACK_PATTERNS.any
      (fun pattern => strIncludes (strToLower url) (strToLower pattern))
  else
    (url == trackingStockLink) ||
    strIncludes url trackingStockLink ||
    strIncludes (strToLower url) (strToLower trackingStockLink) ||
    strEndsWith url trackingStockLink ||
    strIncludes (beforeQuery url) trackingStockLink

/-- The popup dispatcher's predicate at its actual configuration. -/
def BackgroundScheduler.shouldTrackUrl (url : String) : Bool :=
  BackgroundScheduler.shouldTrackUrlWith TRACKING_STOCK_LINK url

/-! ## Claim C5 theorems -/

/-- C5 counterexample: the URL "https://abc.com/api/v4/item/get" contains the
alternate pattern "/api/v4/item/get" of the fixed fallback list, so by the
claim the URL match predicate must return true on it; the popup dispatcher's
predicate `BackgroundScheduler.shouldTrackUrl` (one of the claim's cited
implementations) returns false, because it never consults the alternate
list. -/
theorem shouldTrackUrl_popup_ignores_alternates :
    ALTERNATIVE_TRACKING_PATTERNS.any
        (fun pattern => strIncludes "https://abc.com/api/v4/item/get" pattern) = true ∧
    BackgroundScheduler.shouldTrackUrl "https://abc.com/api/v4/item/get" = false := by
  exact ⟨by decide, by decide⟩

/-- C5 (amended): the background script's and the content script's URL
predicates return true exactly when the URL contains the configured pattern
or one of the fixed alternate patterns; the popup dispatcher's variant
instead returns true exactly when the URL case-insensitively contains the
configured pattern (it never consults the alternate list; its heuristic
API-path branch runs only when no pattern is configured).  The claim's
concrete examples hold: with pattern "https://x/api/v4/pdp/get_pc" the URL
"https://x/api/v4/pdp/get_pc?id=1" matches and "https://x/other" does not. -/
theorem shouldTrackUrl_characterization :
    (∀ url, BackgroundManager.shouldTrackUrl url = true ↔
        (strIncludes url TRACKING_STOCK_LINK = true ∨
          ∃ pattern ∈ ALTERNATIVE_TRACKING_PATTERNS, strIncludes url pattern = true)) ∧
    (∀ url, RequestTracker.shouldTrackUrl url = BackgroundManager.shouldTrackUrl url) ∧
    (∀ url, BackgroundScheduler.shouldTrackUrl url = true ↔
        strIncludes (strToLower url) (strToLower TRACKING_STOCK_LINK) = true) ∧
    BackgroundScheduler.shouldTrackUrlWith "https://x/api/v4/pdp/get_pc"
        "https://x/api/v4/pdp/get_pc?id=1" = true ∧
    BackgroundScheduler.shouldTrackUrlWith "https://x/api/v4/pdp/get_pc"
        "https://x/other" = false ∧
    BackgroundManager.shouldTrackUrl "https://shopee.vn/api/v4/pdp/get_pc?id=1" = true ∧
    BackgroundManager.shouldTrackUrl "https://x/other" = false := by
  refine ⟨?_, ?_, ?_, by decide, by decide, by decide, by decide⟩
  · intro url
    simp [BackgroundManager.shouldTrackUrl, List.any_eq_true]
  · intro url
    rfl
  · intro url
    have hcond : ¬ ((TRACKING_STOCK_LINK == "" || strTrim TRACKING_STOCK_LINK == "") = true) := by
      decide
    unfold BackgroundScheduler.shouldTrackUrl BackgroundScheduler.shouldTrackUrlWith
    rw [if_neg hcond]
    simp only [Bool.or_eq_true, beq_iff_eq]
    constructor
    · rintro ((((rfl | h) | h) | h) | h)
      · exact strIncludes_toLower _ _ (strIncludes_self _)
      · exact strIncludes_toLower _ _ h
      · exact h
      · exact strIncludes_toLower _ _ (strEndsWith_includes _ _ h)
      · exact strIncludes_toLower _ _ (beforeQuery_includes _ _ h)
    · intro h
      exact Or.inl (Or.inl (Or.inr h))

/-! ## Parsed JSON and the extraction engine
(src/chrome-extension-scheduler/src/content/request-tracker.ts)

Values produced by `JSON.parse` (floats out of scope: every body the claims
touch is integral).  `undefined` is `Option.none` one level up. -/

/-- A parsed JSON value. -/
inductive JsonValue
  | null
  | bool (b : Bool)
  | num (n : Int)
  | str (s : String)
  | arr (elems : List JsonValue)
  | obj (fields : List (String × JsonValue))

/-- JS `typeof v === "object" && v !== null`: objects and arrays. -/
def isObjLike : JsonValue → Bool
  | .obj _ => true
  | .arr _ => true
  | _ => false

/-- JS truthiness of a defined value. -/
def jTruthy : JsonValue → Bool
  | .null => false
  | .bool b => b
  | .num n => n != 0
  | .str s => s != ""
  | .arr _ => true
  | .obj _ => true

/-- JS truthiness, `undefined` included. -/
def jTruthyO : Option JsonValue → Bool
  | none => false
  | some v => jTruthy v

/-- JS property access `v[k]` on a non-nullish value: `none` = `undefined`.
Arrays expose index keys and `length`; objects their fields. -/
def jAccess : JsonValue → String → Option JsonValue
  | .obj fields, k => (fields.find? (fun p => p.1 == k)).map Prod.snd
  | .arr elems, k =>
      if k == "length" then some (.num elems.length)
      else
        match k.toNat? with
        | some i => elems.get? i
        | none => none
  | _, _ => none

/-- JS optional chaining `x?.k`. -/
def jChain (x : Option JsonValue) (k : String) : Option JsonValue :=
  match x with
  | none => none
  | some .null => none
  | some v => jAccess v k

/-- JS `k in v` (own keys; the path segments used never hit prototype
properties). -/
def jHasKey (v : JsonValue) (k : String) : Bool :=
  match v with
  | .obj fields => fields.any (fun p => p.1 == k)
  | .arr elems =>
      k == "length" ||
        (match k.toNat? with
         | some i => decide (i < elems.length)
         | none => false)
  | _ => false

/-- JS `Object.entries(v)`. -/
def jEntries : JsonValue → List (String × JsonValue)
  | .obj fields => fields
  | .arr elems => elems.enum.map (fun p => (toString p.1, p.2))
  | _ => []

/-- JS `Array.isArray(v) && v.length > 0`. -/
def isNonEmptyArr : JsonValue → Bool
  | .arr elems => !elems.isEmpty
  | _ => false

/-- JS `s.split('.')` (accumulator = current segment reversed). -/
def splitDotAux : List Char → List Char → List String
  | [], acc => [⟨acc.reverse⟩]
  | c :: rest, acc =>
      if c == '.' then ⟨acc.reverse⟩ :: splitDotAux rest []
      else splitDotAux rest (c :: acc)

/-- JS `s.split('.')`. -/
def strSplitDot (s : String) : List String := splitDotAux s.data []

/-- The configured extraction path (default-system-settings.ts). -/
def MODELS_POSITION : String := "data.item.models"

/-- The entry loop of `RequestTracker.searchForModels` (request-tracker.ts
lines 253-267), with `fuel` = the remaining recursion budget (the source's
`depth > 3` guard re-expressed from the top: a call at depth `d` scans with
fuel `3 - d`, and recursion into a child value is allowed only while fuel
remains).  The fold returns the first hit left to right, exactly like the
source's early-returning `for` loop. -/
def searchAux : Nat → List (String × JsonValue) → Option JsonValue
  | fuel, entries =>
      entries.foldr
        (fun kv acc =>
          if kv.1 == "models" && isNonEmptyArr kv.2 then some kv.2
          else
            let found : Option JsonValue :=
              match fuel with
              | 0 => none
              | fuel' + 1 => if isObjLike kv.2 then searchAux fuel' (jEntries kv.2) else none
            if jTruthyO found then found else acc)
        none

/-- Embeds `RequestTracker.searchForModels` (request-tracker.ts lines 253-268):
depth-limited search for the first nonempty array stored under a key
`"models"`. -/
def searchForModels (v : JsonValue) (depth : Nat) : Option JsonValue :=
  if depth > 3 || !(isObjLike v) then none
  else searchAux (3 - depth) (jEntries v)

/-- Embeds `RequestTracker.findModelsInData` (request-tracker.ts lines 237-251):
the primary path `data.data?.item?.models` when truthy, then the
alternative paths `data.item?.models` and `data.models`, then the bounded
deep search. -/
def findModelsInData (data : JsonValue) : Option JsonValue :=
  if !(jTruthy data) || !(isObjLike data) then none
  else
    let primary := jChain (jChain (jAccess data "data") "item") "models"
    if jTruthyO primary then primary
    else
      let alt1 := jChain (jAccess data "item") "models"
      if jTruthyO alt1 then alt1
      else
        let alt2 := jAccess data "models"
        if jTruthyO alt2 then alt2
        else searchForModels data 0

/-- The strict dot-path walk inside `RequestTracker.extractModelsFromResponse`
(request-tracker.ts lines 769-776): each segment requires `current` to be a
truthy object-typed value that has the key (`segment in current`), else the
extraction returns null (`none`). -/
def walkPath : List String → JsonValue → Option JsonValue
  | [], current => some current
  | seg :: rest, current =>
      if jTruthy current && isObjLike current && jHasKey current seg then
        walkPath rest ((jAccess current seg).getD .null)
      else none

/-- Embeds `RequestTracker.extractModelsFromResponse` (request-tracker.ts lines
758-784): guard `!responseBody`, then walk `MODELS_POSITION` split on dots. -/
def extractModelsFromResponse (responseBody : JsonValue) : Option JsonValue :=
  if !(jTruthy responseBody) then none
  else walkPath (strSplitDot MODELS_POSITION) responseBody

/-! ## Claim C4 theorems -/

/-- C4 counterexample: for the body given by the JSON text
"... models: the array of 1 and 2 at the top level ...", the configured path
"data.item.models" fails at its first segment (`extractModelsFromResponse`
yields no payload), yet `RequestTracker.findModelsInData` — the claim's
other cited extraction routine — returns the payload `[1, 2]` through its
alternative-path fallback, refuting "every path segment must exist and be
traversable or extraction yields no payload". -/
theorem findModelsInData_fallback_defeats_path :
    findModelsInData (.obj [("models", .arr [.num 1, .num 2])]) =
        some (.arr [.num 1, .num 2]) ∧
    extractModelsFromResponse (.obj [("models", .arr [.num 1, .num 2])]) = none :=
  ⟨rfl, rfl⟩

/-- C4 (amended): `extractModelsFromResponse` walks the configured
dot-separated path "data.item.models" strictly — every segment must find a
truthy object-typed value containing that key or it yields no payload; on
the claim's examples it yields the models array for a body holding it at
that path and nothing for a body whose "data" is the empty object.
`findModelsInData`, by contrast, additionally falls back to the alternative
paths `item.models` and `models` and to a depth-limited search for a
nonempty array under a key "models". -/
theorem extraction_walk_characterization :
    extractModelsFromResponse
        (.obj [("data", .obj [("item", .obj [("models", .arr [.num 1, .num 2])])])]) =
      some (.arr [.num 1, .num 2]) ∧
    extractModelsFromResponse (.obj [("data", .obj [])]) = none ∧
    findModelsInData (.obj [("item", .obj [("models", .arr [.num 3])])]) =
      some (.arr [.num 3]) ∧
    strSplitDot MODELS_POSITION = ["data", "item", "models"] ∧
    (∀ (seg : String) (rest : List String) (body : JsonValue),
      walkPath (seg :: rest) body ≠ none →
        jHasKey body seg = true ∧ isObjLike body = true ∧
          walkPath rest ((jAccess body seg).getD .null) ≠ none) := by
  refine ⟨rfl, rfl, rfl, rfl, ?_⟩
  intro seg rest body h
  by_cases hc : (jTruthy body && isObjLike body && jHasKey body seg) = true
  · rw [walkPath, if_pos hc] at h
    simp only [Bool.and_eq_true] at hc
    exact ⟨hc.2, hc.1.2, h⟩
  · rw [walkPath, if_neg hc] at h
    exact absurd rfl h

/-! ## Execution finalization (claim C2)
(popup.tsx `executeSchedule` lines 417-445; part_008 `closeTab` lines 347-368) -/

/-- Result of one `createBackgroundTabWithTracking` call (popup.tsx 578-639):
the promise always resolves, with `success` false on timeout or creation
failure. -/
structure TabRunResult where
  success : Bool
  tabId : Option Nat
  error : Option String
  deriving DecidableEq, Repr

/-- One captured exchange as relayed by the hooks; only its presence matters
to the success flags below. -/
structure TrackedExchange where
  url : String
  deriving DecidableEq, Repr

/-- Outcome of `BackgroundScheduler.executeBusinessLogic` as observed by
`executeSchedule`: it returned (carrying the per-context results and the
exchanges collected into `result.data`), or it threw. -/
inductive BizOutcome
  | ok (results : List TabRunResult) (trackedRequests : List TrackedExchange)
  | threw (msg : String)
  deriving DecidableEq, Repr

/-- The success flag and error message `BackgroundScheduler.executeSchedule`
writes when finalizing the ExecutionRecord: `success: true` whenever
`executeBusinessLogic` returned (popup.tsx 419-424), `success: false` plus
the message when it threw (popup.tsx 440-445). -/
def executeScheduleFinalize : BizOutcome → Bool × Option String
  | .ok _ _ => (true, none)
  | .threw msg => (false, some msg)

/-- The success flag `BackgroundManager.closeTab` writes when finalizing a
tab's record contribution (part_008 line 359):
`success: activeTab.trackedRequests.length > 0`. -/
def closeTabSuccess (trackedRequests : List TrackedExchange) : Bool :=
  decide (trackedRequests.length > 0)

/-! ## Claim C2 theorems -/

/-- C2 counterexample: a firing whose only worker context failed (timeout)
and which captured no exchange is still finalized with `success = true` by
the popup dispatcher, refuting "success flag is true if and only if at least
one worker context succeeded OR at least one exchange was captured". -/
theorem executeScheduleFinalize_ignores_outcomes :
    executeScheduleFinalize
        (.ok [{ success := false, tabId := none, error := some "Timeout" }] []) =
      (true, none) ∧
    List.any [({ success := false, tabId := none, error := some "Timeout" } : TabRunResult)]
        (fun r => r.success) = false ∧
    ([] : List TrackedExchange).length = 0 :=
  ⟨rfl, rfl, rfl⟩

/-- C2 (amended): the popup dispatcher finalizes the record with
`success = true` exactly when `executeBusinessLogic` returns without
throwing — independent of per-context outcomes and captured exchanges — and
with `success = false` plus the error message when it throws; the background
manager variant (part_008 `closeTab`) finalizes a tab's record with
`success = true` exactly when at least one exchange was captured for that
tab (a succeeded context with no captures still counts as failure there). -/
theorem finalize_success_characterization :
    (∀ results trackedRequests,
      executeScheduleFinalize (.ok results trackedRequests) = (true, none)) ∧
    (∀ msg, executeScheduleFinalize (.threw msg) = (false, some msg)) ∧
    (∀ trackedRequests : List TrackedExchange,
      closeTabSuccess trackedRequests = true ↔ trackedRequests ≠ []) := by
  refine ⟨fun _ _ => rfl, fun _ => rfl, fun trackedRequests => ?_⟩
  simp [closeTabSuccess, List.length_pos]

/-! ## Batch dispatch (claim C3)
(popup.tsx `executeBusinessLogic`, lines 458-526) -/

/-- Embeds `HIDDEN_TAB_SETTINGS.MAX_CONCURRENT_TABS` (default-system-settings.ts);
the source reads it through `|| 3`, leaving 3. -/
def MAX_CONCURRENT_TABS : Nat := 3

/-- Actions of the dispatch loop, in program order: start one worker context
(`createBackgroundTabWithTracking`, 0-based item index), await the whole
batch (`await Promise.allSettled(batchPromises)`), and the inter-batch sleep
(`await this.delay(2000)`). -/
inductive DispatchAction
  | start (item : Nat)
  | awaitBatch
  | interDelay (ms : Nat)
  deriving DecidableEq, Repr

/-- Item batches of the loop `for (let i = 0; i < quantity; i += batchSize)`
with `batchEnd = Math.min(i + batchSize, quantity)` and inner loop
`for (let j = i; j < batchEnd; j++)` (popup.tsx 489-499).  `fuel` bounds the
iteration count to make the recursion structural; `quantity - i` steps always
suffice since `i` grows by `bs ≥ 1`. -/
def batchLoopAux (bs : Nat) : Nat → Nat → Nat → List (List Nat)
  | 0, _, _ => []
  | fuel + 1, i, quantity =>
      if i < quantity ∧ 0 < bs then
        List.range' i (min (i + bs) quantity - i) :: batchLoopAux bs fuel (i + bs) quantity
      else []

/-- Action trace of the same loop: each batch's starts, the
`Promise.allSettled` await, then `delay(2000)` when `batchEnd < quantity`
(popup.tsx 489-525). -/
def traceLoopAux (bs : Nat) : Nat → Nat → Nat → List DispatchAction
  | 0, _, _ => []
  | fuel + 1, i, quantity =>
      if i < quantity ∧ 0 < bs then
        (List.range' i (min (i + bs) quantity - i)).map .start ++ [.awaitBatch] ++
          (if i + bs < quantity then [.interDelay 2000] else []) ++
          traceLoopAux bs fuel (i + bs) quantity
      else []

/-- Embeds `executeBusinessLogic`'s batching (popup.tsx 476-526): quantity 1 runs
the single item directly; otherwise `batchSize = Math.min(quantity, 3)` and
the batch loop runs. -/
def executeBusinessLogicBatches (quantity : Nat) : List (List Nat) :=
  if quantity = 1 then [[0]]
  else batchLoopAux (min quantity MAX_CONCURRENT_TABS) quantity 0 quantity

/-- The action trace of `executeBusinessLogic`'s dispatch: the single item is
awaited directly (no `Promise.allSettled`, no delay); otherwise the batch
loop's trace. -/
def executeBusinessLogicTrace (quantity : Nat) : List DispatchAction :=
  if quantity = 1 then [.start 0]
  else traceLoopAux (min quantity MAX_CONCURRENT_TABS) quantity 0 quantity

/-- Specification-side shape of a batched dispatch (spec section 4.2 step 3):
every batch is fully started and then awaited before anything of the next
batch runs, and the fixed 2000 ms delay separates consecutive batches. -/
def specBatchSchedule : List (List Nat) → List DispatchAction
  | [] => []
  | [b] => b.map .start ++ [.awaitBatch]
  | b :: b' :: rest =>
      b.map .start ++ [.awaitBatch] ++ [.interDelay 2000] ++ specBatchSchedule (b' :: rest)

theorem range'_append_one (i m n : Nat) :
    List.range' i m ++ List.range' (i + m) n = List.range' i (m + n) := by
  have h := List.range'_append i m n 1
  rw [Nat.one_mul] at h
  rw [Nat.add_comm m n]
  exact h

theorem batchLoopAux_eq_nil (bs fuel i q : Nat) :
    batchLoopAux bs fuel i q = [] ↔ (fuel = 0 ∨ ¬(i < q ∧ 0 < bs)) := by
  cases fuel with
  | zero => simp [batchLoopAux]
  | succ fuel =>
    by_cases h : i < q ∧ 0 < bs
    · simp [batchLoopAux, h]
    · simp [batchLoopAux, h]

theorem batchLoopAux_flatten (bs : Nat) (hbs : 0 < bs) :
    ∀ (fuel i q : Nat), q - i ≤ fuel →
      (batchLoopAux bs fuel i q).flatten = List.range' i (q - i) := by
  intro fuel
  induction fuel with
  | zero =>
    intro i q hle
    have h0 : q - i = 0 := Nat.le_zero.mp hle
    simp [batchLoopAux, h0]
  | succ fuel ih =>
    intro i q hle
    by_cases hi : i < q
    · simp only [batchLoopAux, if_pos (show i < q ∧ 0 < bs from ⟨hi, hbs⟩), List.flatten_cons]
      by_cases hd : i + bs ≤ q
      · have hmin : min (i + bs) q = i + bs := Nat.min_eq_left hd
        rw [hmin, ih (i + bs) q (by omega)]
        have h1 : i + bs - i = bs := by omega
        rw [h1, range'_append_one i bs (q - (i + bs))]
        have h2 : bs + (q - (i + bs)) = q - i := by omega
        rw [h2]
      · have hmin : min (i + bs) q = q := by omega
        rw [hmin, ih (i + bs) q (by omega)]
        have h0 : q - (i + bs) = 0 := by omega
        rw [h0]
        simp
    · have hng : ¬(i < q ∧ 0 < bs) := fun hc => hi hc.1
      have h0 : q - i = 0 := by omega
      simp [batchLoopAux, hng, h0]


theorem batchLoopAux_ne_nil_facts (bs fuel i q : Nat)
    (hne : batchLoopAux bs fuel i q ≠ []) : fuel ≠ 0 ∧ i < q ∧ 0 < bs := by
  have h := (batchLoopAux_eq_nil bs fuel i q).not.mp hne
  push_neg at h
  exact ⟨h.1, h.2⟩

theorem batchLoopAux_dropLast_length (bs : Nat) (hbs : 0 < bs) :
    ∀ (fuel i q : Nat), ∀ b ∈ (batchLoopAux bs fuel i q).dropLast, b.length = bs := by
  intro fuel
  induction fuel with
  | zero =>
    intro i q b hb
    simp [batchLoopAux] at hb
  | succ fuel ih =>
    intro i q b hb
    by_cases hi : i < q
    · simp only [batchLoopAux, if_pos (show i < q ∧ 0 < bs from ⟨hi, hbs⟩)] at hb
      cases hrec : batchLoopAux bs fuel (i + bs) q with
      | nil =>
        rw [hrec] at hb
        simp [List.dropLast_single] at hb
      | cons b1 rest =>
        have hne : batchLoopAux bs fuel (i + bs) q ≠ [] := by
          rw [hrec]
          exact List.cons_ne_nil _ _
        have hd : i + bs < q := (batchLoopAux_ne_nil_facts bs fuel (i + bs) q hne).2.1
        rw [hrec, List.dropLast_cons₂, List.mem_cons] at hb
        rcases hb with rfl | hb
        · rw [List.length_range']
          omega
        · exact ih (i + bs) q b (by rw [hrec]; exact hb)
    · have hng : ¬(i < q ∧ 0 < bs) := fun hc => hi hc.1
      simp [batchLoopAux, hng] at hb

theorem batchLoopAux_mem_length (bs : Nat) (hbs : 0 < bs) :
    ∀ (fuel i q : Nat), ∀ b ∈ batchLoopAux bs fuel i q, 0 < b.length ∧ b.length ≤ bs := by
  intro fuel
  induction fuel with
  | zero =>
    intro i q b hb
    simp [batchLoopAux] at hb
  | succ fuel ih =>
    intro i q b hb
    by_cases hi : i < q
    · simp only [batchLoopAux, if_pos (show i < q ∧ 0 < bs from ⟨hi, hbs⟩),
        List.mem_cons] at hb
      rcases hb with rfl | hb
      · rw [List.length_range']
        omega
      · exact ih (i + bs) q b hb
    · have hng : ¬(i < q ∧ 0 < bs) := fun hc => hi hc.1
      simp [batchLoopAux, hng] at hb

theorem traceLoopAux_eq_spec (bs : Nat) (hbs : 0 < bs) :
    ∀ (fuel i q : Nat), q - i ≤ fuel →
      traceLoopAux bs fuel i q = specBatchSchedule (batchLoopAux bs fuel i q) := by
  intro fuel
  induction fuel with
  | zero =>
    intro i q _
    simp [traceLoopAux, batchLoopAux, specBatchSchedule]
  | succ fuel ih =>
    intro i q hle
    by_cases hi : i < q
    · simp only [traceLoopAux, batchLoopAux, if_pos (show i < q ∧ 0 < bs from ⟨hi, hbs⟩)]
      by_cases hd : i + bs < q
      · have hne : batchLoopAux bs fuel (i + bs) q ≠ [] := by
          intro hnil
          rcases (batchLoopAux_eq_nil bs fuel (i + bs) q).mp hnil with h0 | hng
          · omega
          · exact hng ⟨hd, hbs⟩
        cases hrec : batchLoopAux bs fuel (i + bs) q with
        | nil => exact absurd hrec hne
        | cons b1 rest =>
          rw [if_pos hd, ih (i + bs) q (by omega), hrec]
          simp [specBatchSchedule, List.append_assoc]
      · have hrest : batchLoopAux bs fuel (i + bs) q = [] :=
          (batchLoopAux_eq_nil bs fuel (i + bs) q).mpr (Or.inr (fun hc => hd hc.1))
        rw [if_neg hd, ih (i + bs) q (by omega), hrest]
        simp [specBatchSchedule]
    · have hng : ¬(i < q ∧ 0 < bs) := fun hc => hi hc.1
      simp [traceLoopAux, batchLoopAux, hng, specBatchSchedule]

/-! ## Claim C3 theorem -/

/-- C3: for every firing with work quantity q > 1, the worker contexts are
launched in batches of size min(q, 3): the batches partition the items
0..q-1 in order, every batch but the last has exactly min(q, 3) items and
none is empty or larger; the dispatch trace equals the specification shape
in which each batch is fully started then awaited before the next batch
begins, with the fixed 2000 ms delay between consecutive batches; and for
q = 7 the batch sizes are exactly 3, 3, 1. -/
theorem executeBusinessLogic_batching (q : Nat) (hq : 1 < q) :
    (executeBusinessLogicBatches q).flatten = List.range q ∧
    (∀ b ∈ (executeBusinessLogicBatches q).dropLast, b.length = min q MAX_CONCURRENT_TABS) ∧
    (∀ b ∈ executeBusinessLogicBatches q,
      0 < b.length ∧ b.length ≤ min q MAX_CONCURRENT_TABS) ∧
    executeBusinessLogicTrace q = specBatchSchedule (executeBusinessLogicBatches q) ∧
    (q = 7 → List.map List.length (executeBusinessLogicBatches q) = [3, 3, 1]) := by
  have hq1 : ¬(q = 1) := by omega
  have hbs : 0 < min q MAX_CONCURRENT_TABS := by
    have : (MAX_CONCURRENT_TABS : Nat) = 3 := rfl
    omega
  refine ⟨?_, ?_, ?_, ?_, ?_⟩
  · rw [executeBusinessLogicBatches, if_neg hq1,
      batchLoopAux_flatten _ hbs q 0 q (by omega)]
    simp [List.range_eq_range']
  · rw [executeBusinessLogicBatches, if_neg hq1]
    exact batchLoopAux_dropLast_length _ hbs q 0 q
  · rw [executeBusinessLogicBatches, if_neg hq1]
    exact batchLoopAux_mem_length _ hbs q 0 q
  · rw [executeBusinessLogicBatches, executeBusinessLogicTrace, if_neg hq1, if_neg hq1]
    exact traceLoopAux_eq_spec _ hbs q 0 q (by omega)
  · intro h7
    subst h7
    rfl

/-- Witness for C3 at quantity 7: the batching facts instantiated at the
claim's concrete quantity. -/
theorem executeBusinessLogic_batching_witness :
    (executeBusinessLogicBatches 7).flatten = List.range 7 ∧
    (∀ b ∈ (executeBusinessLogicBatches 7).dropLast, b.length = min 7 MAX_CONCURRENT_TABS) ∧
    (∀ b ∈ executeBusinessLogicBatches 7,
      0 < b.length ∧ b.length ≤ min 7 MAX_CONCURRENT_TABS) ∧
    executeBusinessLogicTrace 7 = specBatchSchedule (executeBusinessLogicBatches 7) ∧
    (7 = 7 → List.map List.length (executeBusinessLogicBatches 7) = [3, 3, 1]) :=
  executeBusinessLogic_batching 7 (by decide)

/-! ## The dispatcher's claiming discipline (claims C1, C7, C9)
(popup.tsx `BackgroundScheduler`: `checkAndExecuteSchedules` lines 350-380,
`executeSchedule` lines 382-455, `forceExecuteSchedule` lines 857-870)

The orchestrator is embedded as a transition system over the in-memory
`processingQueue` set, the persisted execution records and the schedules'
enabled flags.  JavaScript's single event loop makes the guarded sections
atomic: `executeSchedule` checks and extends `processingQueue` synchronously
before its first await (383-390); on completion the record's final write
(419-424 or 434, or 440-445 in the catch) happens before the `finally`
releases the id (446-448), and queue membership blocks every other claim in
between, so an event bundles one guard-add (with the record creation that
follows it) or one finalize-release.  Event times carry the strictly
increasing real-time clock. -/

/-- One row of `ExecutionHistory` as the dispatcher writes it (types/index.ts;
`logs`, `linkId` and `executionData` do not bear on the claims). -/
structure ExecRecord where
  scheduleId : String
  startTime : Int
  endTime : Option Int
  success : Bool
  errorMessage : Option String
  deriving DecidableEq, Repr

/-- The dispatcher-visible state: the static kind of each schedule, the ids
whose stored schedule is enabled, `BackgroundScheduler.processingQueue`, the
`HistoryRepository` rows, and the last event time. -/
structure DispatchState where
  types : List (String × ScheduleType)
  enabledIds : List String
  processingQueue : List String
  records : List ExecRecord
  clock : Int
  deriving DecidableEq, Repr

/-- Events of the dispatcher.  `claim` is a tick firing a due schedule
(`checkAndExecuteSchedules` filter + `executeSchedule` guard-add + record
creation); `claimStuck` is a claim whose `HistoryRepository.create`
(popup.tsx 394, before the `try`) threw — queue extended, no record, and no
`finally` to release; `forceClaim` is `forceExecuteSchedule`, which skips
the enabled/due filter; `finishOk`/`finishErr` are the return and catch
paths of `executeSchedule` with their `finally` release. -/
inductive DispatchEvent
  | claim (sid : String) (t : Int)
  | claimStuck (sid : String) (t : Int)
  | forceClaim (sid : String) (t : Int)
  | finishOk (sid : String) (t : Int)
  | finishErr (sid : String) (msg : String) (t : Int)
  deriving DecidableEq, Repr

/-- The stored kind of a schedule id (static configuration). -/
def lookupType (types : List (String × ScheduleType)) (sid : String) : ScheduleType :=
  ((types.find? (fun p => p.1 == sid)).map Prod.snd).getD .cron

/-- Embeds `HistoryRepository.updateExecution` on the firing's open record: close it
with the end time, the final success flag and the error message; closed
records and other schedules' records are untouched. -/
def closeRecord (sid : String) (t : Int) (ok : Bool) (msg : Option String)
    (r : ExecRecord) : ExecRecord :=
  if r.scheduleId == sid && r.endTime.isNone then
    { r with endTime := some t, success := ok, errorMessage := msg }
  else r

/-- One dispatcher step; `none` when the event's guard does not hold (the
code path cannot run from this state). -/
def step (s : DispatchState) (e : DispatchEvent) : Option DispatchState :=
  match e with
  | .claim sid t =>
      if s.clock < t ∧ sid ∈ s.enabledIds ∧ sid ∉ s.processingQueue then
        some { s with
          processingQueue := sid :: s.processingQueue,
          records := s.records ++ [⟨sid, t, none, false, none⟩],
          clock := t }
      else none
  | .claimStuck sid t =>
      if s.clock < t ∧ sid ∈ s.enabledIds ∧ sid ∉ s.processingQueue then
        some { s with processingQueue := sid :: s.processingQueue, clock := t }
      else none
  | .forceClaim sid t =>
      if s.clock < t ∧ sid ∉ s.processingQueue then
        some { s with
          processingQueue := sid :: s.processingQueue,
          records := s.records ++ [⟨sid, t, none, false, none⟩],
          clock := t }
      else none
  | .finishOk sid t =>
      if s.clock < t ∧ sid ∈ s.processingQueue ∧
          (∃ r ∈ s.records, r.scheduleId = sid ∧ r.endTime = none) then
        some { s with
          records := s.records.map (closeRecord sid t true none),
          enabledIds :=
            if lookupType s.types sid = .once then
              s.enabledIds.filter (fun x => x ≠ sid)
            else s.enabledIds,
          processingQueue := s.processingQueue.filter (fun x => x ≠ sid),
          clock := t }
      else none
  | .finishErr sid msg t =>
      if s.clock < t ∧ sid ∈ s.processingQueue ∧
          (∃ r ∈ s.records, r.scheduleId = sid ∧ r.endTime = none) then
        some { s with
          records := s.records.map (closeRecord sid t false (some msg)),
          processingQueue := s.processingQueue.filter (fun x => x ≠ sid),
          clock := t }
      else none

/-- Run a sequence of dispatcher events. -/
def run : DispatchState → List DispatchEvent → Option DispatchState
  | s, [] => some s
  | s, e :: es =>
      match step s e with
      | some s' => run s' es
      | none => none

/-- The dispatcher's start state: no claims, no records. -/
def initState (types : List (String × ScheduleType)) (enabledIds : List String) :
    DispatchState :=
  { types := types, enabledIds := enabledIds, processingQueue := [],
    records := [], clock := 0 }

/-- Whether an event is a forced execution (UI-initiated, not a tick). -/
def isForced : DispatchEvent → Bool
  | .forceClaim _ _ => true
  | _ => false

/-- Ordered-pair separation: an earlier record of the same schedule is closed
strictly before the later one starts. -/
def SameIdSeparated (r1 r2 : ExecRecord) : Prop :=
  r1.scheduleId = r2.scheduleId → ∃ e1, r1.endTime = some e1 ∧ e1 < r2.startTime

/-- The dispatcher's safety invariant: record times are bounded by the clock,
every open record's schedule is claimed, and same-schedule records are
separated in list (= creation) order. -/
structure DispatchInv (s : DispatchState) : Prop where
  timeStart : ∀ r ∈ s.records, r.startTime ≤ s.clock
  timeEnd : ∀ r ∈ s.records, ∀ e, r.endTime = some e → e ≤ s.clock
  openClaimed : ∀ r ∈ s.records, r.endTime = none → r.scheduleId ∈ s.processingQueue
  sep : List.Pairwise SameIdSeparated s.records

theorem closeRecord_scheduleId (sid : String) (t : Int) (ok : Bool)
    (msg : Option String) (r : ExecRecord) :
    (closeRecord sid t ok msg r).scheduleId = r.scheduleId := by
  unfold closeRecord
  split <;> rfl

theorem closeRecord_startTime (sid : String) (t : Int) (ok : Bool)
    (msg : Option String) (r : ExecRecord) :
    (closeRecord sid t ok msg r).startTime = r.startTime := by
  unfold closeRecord
  split <;> rfl

theorem closeRecord_of_closed (sid : String) (t : Int) (ok : Bool)
    (msg : Option String) (r : ExecRecord) (h : r.endTime ≠ none) :
    closeRecord sid t ok msg r = r := by
  unfold closeRecord
  have : r.endTime.isNone = false := by
    cases hr : r.endTime with
    | none => exact absurd hr h
    | some e => rfl
  rw [this]
  simp

theorem closeRecord_endTime (sid : String) (t : Int) (ok : Bool)
    (msg : Option String) (r : ExecRecord) :
    (closeRecord sid t ok msg r).endTime = r.endTime ∨
      (closeRecord sid t ok msg r).endTime = some t := by
  unfold closeRecord
  split
  · exact Or.inr rfl
  · exact Or.inl rfl

theorem closeRecord_open_matching (sid : String) (t : Int) (ok : Bool)
    (msg : Option String) (r : ExecRecord) (hid : r.scheduleId = sid)
    (hopen : r.endTime = none) :
    closeRecord sid t ok msg r =
      { r with endTime := some t, success := ok, errorMessage := msg } := by
  unfold closeRecord
  rw [if_pos]
  simp [hid, hopen]

theorem closeRecord_open_iff (sid : String) (t : Int) (ok : Bool)
    (msg : Option String) (r : ExecRecord)
    (h : (closeRecord sid t ok msg r).endTime = none) :
    r.endTime = none ∧ r.scheduleId ≠ sid := by
  unfold closeRecord at h
  split at h
  · exact absurd h (by simp)
  · next hguard =>
    refine ⟨h, ?_⟩
    intro hid
    exact hguard (by simp [hid, h])

theorem dispatchInv_init (types : List (String × ScheduleType))
    (enabledIds : List String) : DispatchInv (initState types enabledIds) := by
  refine ⟨?_, ?_, ?_, ?_⟩ <;> simp [initState]

theorem step_dispatchInv {s s' : DispatchState} {e : DispatchEvent}
    (h : step s e = some s') (hinv : DispatchInv s) : DispatchInv s' := by
  cases e with
  | claim sid t =>
    simp only [step] at h
    split at h
    case isFalse => exact Option.noConfusion h
    case isTrue hg =>
      obtain ⟨hck, _hen, hnq⟩ := hg
      injection h with h
      subst h
      refine ⟨?_, ?_, ?_, ?_⟩
      · intro r hr
        rcases List.mem_append.mp hr with hr | hr
        · exact le_of_lt (lt_of_le_of_lt (hinv.timeStart r hr) hck)
        · rw [List.mem_singleton.mp hr]
      · intro r hr e he
        rcases List.mem_append.mp hr with hr | hr
        · exact le_of_lt (lt_of_le_of_lt (hinv.timeEnd r hr e he) hck)
        · rw [List.mem_singleton.mp hr] at he
          exact Option.noConfusion he
      · intro r hr hopen
        rcases List.mem_append.mp hr with hr | hr
        · exact List.mem_cons_of_mem _ (hinv.openClaimed r hr hopen)
        · rw [List.mem_singleton.mp hr]
          exact List.mem_cons_self _ _
      · refine List.pairwise_append.mpr ⟨hinv.sep, List.pairwise_singleton _ _, ?_⟩
        intro r hr r0 hr0 hid
        rw [List.mem_singleton.mp hr0] at hid ⊢
        cases hre : r.endTime with
        | none => exact absurd (hinv.openClaimed r hr hre) (by simpa [hid] using hnq)
        | some e1 =>
          exact ⟨e1, rfl, lt_of_le_of_lt (hinv.timeEnd r hr e1 hre) hck⟩
  | claimStuck sid t =>
    simp only [step] at h
    split at h
    case isFalse => exact Option.noConfusion h
    case isTrue hg =>
      obtain ⟨hck, _hen, _hnq⟩ := hg
      injection h with h
      subst h
      refine ⟨?_, ?_, ?_, ?_⟩
      · intro r hr
        exact le_of_lt (lt_of_le_of_lt (hinv.timeStart r hr) hck)
      · intro r hr e he
        exact le_of_lt (lt_of_le_of_lt (hinv.timeEnd r hr e he) hck)
      · intro r hr hopen
        exact List.mem_cons_of_mem _ (hinv.openClaimed r hr hopen)
      · exact hinv.sep
  | forceClaim sid t =>
    simp only [step] at h
    split at h
    case isFalse => exact Option.noConfusion h
    case isTrue hg =>
      obtain ⟨hck, hnq⟩ := hg
      injection h with h
      subst h
      refine ⟨?_, ?_, ?_, ?_⟩
      · intro r hr
        rcases List.mem_append.mp hr with hr | hr
        · exact le_of_lt (lt_of_le_of_lt (hinv.timeStart r hr) hck)
        · rw [List.mem_singleton.mp hr]
      · intro r hr e he
        rcases List.mem_append.mp hr with hr | hr
        · exact le_of_lt (lt_of_le_of_lt (hinv.timeEnd r hr e he) hck)
        · rw [List.mem_singleton.mp hr] at he
          exact Option.noConfusion he
      · intro r hr hopen
        rcases List.mem_append.mp hr with hr | hr
        · exact List.mem_cons_of_mem _ (hinv.openClaimed r hr hopen)
        · rw [List.mem_singleton.mp hr]
          exact List.mem_cons_self _ _
      · refine List.pairwise_append.mpr ⟨hinv.sep, List.pairwise_singleton _ _, ?_⟩
        intro r hr r0 hr0 hid
        rw [List.mem_singleton.mp hr0] at hid ⊢
        cases hre : r.endTime with
        | none => exact absurd (hinv.openClaimed r hr hre) (by simpa [hid] using hnq)
        | some e1 =>
          exact ⟨e1, rfl, lt_of_le_of_lt (hinv.timeEnd r hr e1 hre) hck⟩
  | finishOk sid t =>
    simp only [step] at h
    split at h
    case isFalse => exact Option.noConfusion h
    case isTrue hg =>
      obtain ⟨hck, _hq, _hex⟩ := hg
      injection h with h
      subst h
      refine ⟨?_, ?_, ?_, ?_⟩
      · intro r' hr'
        rcases List.mem_map.mp hr' with ⟨r, hr, rfl⟩
        rw [closeRecord_startTime]
        exact le_of_lt (lt_of_le_of_lt (hinv.timeStart r hr) hck)
      · intro r' hr' e he
        rcases List.mem_map.mp hr' with ⟨r, hr, rfl⟩
        rcases closeRecord_endTime sid t true none r with hc | hc
        · rw [hc] at he
          exact le_of_lt (lt_of_le_of_lt (hinv.timeEnd r hr e he) hck)
        · rw [hc] at he
          injection he with he
          subst he
          exact le_refl _
      · intro r' hr' hopen
        rcases List.mem_map.mp hr' with ⟨r, hr, rfl⟩
        obtain ⟨hro, hrid⟩ := closeRecord_open_iff sid t true none r hopen
        rw [closeRecord_scheduleId]
        refine List.mem_filter.mpr ⟨hinv.openClaimed r hr hro, by simpa using hrid⟩
      · refine List.pairwise_map.mpr (hinv.sep.imp ?_)
        intro a b hab hid
        rw [closeRecord_scheduleId, closeRecord_scheduleId] at hid
        rcases hab hid with ⟨e1, ha, hlt⟩
        refine ⟨e1, ?_, ?_⟩
        · rw [closeRecord_of_closed sid t true none a (by rw [ha]; exact Option.noConfusion)]
          exact ha
        · rw [closeRecord_startTime]
          exact hlt
  | finishErr sid msg t =>
    simp only [step] at h
    split at h
    case isFalse => exact Option.noConfusion h
    case isTrue hg =>
      obtain ⟨hck, _hq, _hex⟩ := hg
      injection h with h
      subst h
      refine ⟨?_, ?_, ?_, ?_⟩
      · intro r' hr'
        rcases List.mem_map.mp hr' with ⟨r, hr, rfl⟩
        rw [closeRecord_startTime]
        exact le_of_lt (lt_of_le_of_lt (hinv.timeStart r hr) hck)
      · intro r' hr' e he
        rcases List.mem_map.mp hr' with ⟨r, hr, rfl⟩
        rcases closeRecord_endTime sid t false (some msg) r with hc | hc
        · rw [hc] at he
          exact le_of_lt (lt_of_le_of_lt (hinv.timeEnd r hr e he) hck)
        · rw [hc] at he
          injection he with he
          subst he
          exact le_refl _
      · intro r' hr' hopen
        rcases List.mem_map.mp hr' with ⟨r, hr, rfl⟩
        obtain ⟨hro, hrid⟩ := closeRecord_open_iff sid t false (some msg) r hopen
        rw [closeRecord_scheduleId]
        refine List.mem_filter.mpr ⟨hinv.openClaimed r hr hro, by simpa using hrid⟩
      · refine List.pairwise_map.mpr (hinv.sep.imp ?_)
        intro a b hab hid
        rw [closeRecord_scheduleId, closeRecord_scheduleId] at hid
        rcases hab hid with ⟨e1, ha, hlt⟩
        refine ⟨e1, ?_, ?_⟩
        · rw [closeRecord_of_closed sid t false (some msg) a (by rw [ha]; exact Option.noConfusion)]
          exact ha
        · rw [closeRecord_startTime]
          exact hlt

theorem run_dispatchInv :
    ∀ (evs : List DispatchEvent) (s0 s : DispatchState),
      run s0 evs = some s → DispatchInv s0 → DispatchInv s := by
  intro evs
  induction evs with
  | nil =>
    intro s0 s hrun hinv
    simp only [run] at hrun
    injection hrun with hrun
    exact hrun ▸ hinv
  | cons e es ih =>
    intro s0 s hrun hinv
    simp only [run] at hrun
    cases hstep : step s0 e with
    | none => rw [hstep] at hrun; exact Option.noConfusion hrun
    | some s1 =>
      rw [hstep] at hrun
      exact ih s1 s hrun (step_dispatchInv hstep hinv)

/-! ## Claim C1 theorem -/

/-- C1: in every reachable dispatcher state, a schedule id held in the
in-memory processing-queue set cannot be claimed or executed again — every
claim event's guard fails while the id is held, so the claim is released
only by the execution's own finalize — and consequently no two
ExecutionRecords for the same schedule id overlap in
`[startTime, endTime]`. -/
theorem claim_mutual_exclusion (types : List (String × ScheduleType))
    (enabledIds : List String) (evs : List DispatchEvent) (s : DispatchState)
    (hrun : run (initState types enabledIds) evs = some s) :
    (∀ sid t, sid ∈ s.processingQueue →
      step s (.claim sid t) = none ∧ step s (.claimStuck sid t) = none ∧
        step s (.forceClaim sid t) = none) ∧
    List.Pairwise
      (fun r1 r2 => r1.scheduleId = r2.scheduleId →
        ∀ e1 e2, r1.endTime = some e1 → r2.endTime = some e2 →
          ¬ ∃ x : Int, r1.startTime ≤ x ∧ x ≤ e1 ∧ r2.startTime ≤ x ∧ x ≤ e2)
      s.records := by
  have hinv := run_dispatchInv evs _ s hrun (dispatchInv_init types enabledIds)
  constructor
  · intro sid t hq
    refine ⟨?_, ?_, ?_⟩
    · simp only [step]
      rw [if_neg]
      intro hg
      exact hg.2.2 hq
    · simp only [step]
      rw [if_neg]
      intro hg
      exact hg.2.2 hq
    · simp only [step]
      rw [if_neg]
      intro hg
      exact hg.2 hq
  · refine hinv.sep.imp ?_
    intro a b hab hid e1 e2 ha _hb
    rintro ⟨x, hx1, hx2, hx3, hx4⟩
    rcases hab hid with ⟨e1', ha', hlt⟩
    rw [ha] at ha'
    injection ha' with ha'
    omega

/-- Witness for C1 on the concrete trace claim-finishOk-claim-finishErr of a
single interval schedule "s": both records are closed and separated, and a
held id refuses further claims. -/
theorem claim_mutual_exclusion_witness :
    (∀ sid t,
      sid ∈ ({ types := [("s", ScheduleType.interval)], enabledIds := ["s"],
               processingQueue := [],
               records := [⟨"s", 1, some 2, true, none⟩,
                           ⟨"s", 3, some 4, false, some "boom"⟩],
               clock := 4 } : DispatchState).processingQueue →
      step { types := [("s", ScheduleType.interval)], enabledIds := ["s"],
             processingQueue := [],
             records := [⟨"s", 1, some 2, true, none⟩,
                         ⟨"s", 3, some 4, false, some "boom"⟩],
             clock := 4 } (.claim sid t) = none ∧
      step { types := [("s", ScheduleType.interval)], enabledIds := ["s"],
             processingQueue := [],
             records := [⟨"s", 1, some 2, true, none⟩,
                         ⟨"s", 3, some 4, false, some "boom"⟩],
             clock := 4 } (.claimStuck sid t) = none ∧
      step { types := [("s", ScheduleType.interval)], enabledIds := ["s"],
             processingQueue := [],
             records := [⟨"s", 1, some 2, true, none⟩,
                         ⟨"s", 3, some 4, false, some "boom"⟩],
             clock := 4 } (.forceClaim sid t) = none) ∧
    List.Pairwise
      (fun r1 r2 => r1.scheduleId = r2.scheduleId →
        ∀ e1 e2, r1.endTime = some e1 → r2.endTime = some e2 →
          ¬ ∃ x : Int, r1.startTime ≤ x ∧ x ≤ e1 ∧ r2.startTime ≤ x ∧ x ≤ e2)
      ([⟨"s", 1, some 2, true, none⟩,
        ⟨"s", 3, some 4, false, some "boom"⟩] : List ExecRecord) :=
  claim_mutual_exclusion [("s", .interval)] ["s"]
    [.claim "s" 1, .finishOk "s" 2, .claim "s" 3, .finishErr "s" "boom" 4]
    { types := [("s", ScheduleType.interval)], enabledIds := ["s"],
      processingQueue := [],
      records := [⟨"s", 1, some 2, true, none⟩,
                  ⟨"s", 3, some 4, false, some "boom"⟩],
      clock := 4 }
    (by decide)

theorem closeRecord_of_other_id (sid : String) (t : Int) (ok : Bool)
    (msg : Option String) (r : ExecRecord) (hid : r.scheduleId ≠ sid) :
    closeRecord sid t ok msg r = r := by
  unfold closeRecord
  rw [if_neg]
  intro hg
  exact hid (by simpa using (Bool.and_eq_true _ _ |>.mp hg).1)

/-- Once-schedule bookkeeping that holds along tick-only (unforced) traces:
a successful record of a once-schedule means the schedule is already
disabled; an open record of a once-schedule means it is still enabled; open
records are not yet successful; and a once-schedule never owns two
successful records. -/
structure OnceInv (s : DispatchState) : Prop where
  succDisabled : ∀ r ∈ s.records, lookupType s.types r.scheduleId = .once →
    r.success = true → r.scheduleId ∉ s.enabledIds
  openEnabled : ∀ r ∈ s.records, r.endTime = none →
    lookupType s.types r.scheduleId = .once → r.scheduleId ∈ s.enabledIds
  openNotSucc : ∀ r ∈ s.records, r.endTime = none → r.success = false
  uniqSucc : List.Pairwise
    (fun r1 r2 => r1.scheduleId = r2.scheduleId →
      lookupType s.types r1.scheduleId = .once →
      ¬(r1.success = true ∧ r2.success = true)) s.records

theorem onceInv_init (types : List (String × ScheduleType))
    (enabledIds : List String) : OnceInv (initState types enabledIds) := by
  refine ⟨?_, ?_, ?_, ?_⟩ <;> simp [initState]

theorem closeRecord_of_not_guard (sid : String) (t : Int) (ok : Bool)
    (msg : Option String) (r : ExecRecord)
    (h : ¬(r.scheduleId = sid ∧ r.endTime = none)) :
    closeRecord sid t ok msg r = r := by
  unfold closeRecord
  rw [if_neg]
  intro hg
  rcases (Bool.and_eq_true _ _).mp hg with ⟨h1, h2⟩
  exact h ⟨by simpa using h1, by simpa using h2⟩

theorem step_onceInv {s s' : DispatchState} {e : DispatchEvent}
    (h : step s e = some s') (hforce : isForced e = false)
    (hinv : DispatchInv s) (h7 : OnceInv s) : OnceInv s' := by
  cases e with
  | claim sid t =>
    simp only [step] at h
    split at h
    case isFalse => exact Option.noConfusion h
    case isTrue hg =>
      obtain ⟨_hck, hen, _hnq⟩ := hg
      injection h with h
      subst h
      refine ⟨?_, ?_, ?_, ?_⟩
      · intro r hr htype hsucc
        rcases List.mem_append.mp hr with hr | hr
        · exact h7.succDisabled r hr htype hsucc
        · rw [List.mem_singleton.mp hr] at hsucc
          simp at hsucc
      · intro r hr hopen htype
        rcases List.mem_append.mp hr with hr | hr
        · exact h7.openEnabled r hr hopen htype
        · rw [List.mem_singleton.mp hr]
          exact hen
      · intro r hr hopen
        rcases List.mem_append.mp hr with hr | hr
        · exact h7.openNotSucc r hr hopen
        · rw [List.mem_singleton.mp hr]
      · refine List.pairwise_append.mpr ⟨h7.uniqSucc, List.pairwise_singleton _ _, ?_⟩
        intro r _hr r0 hr0 _hid _htype hss
        rw [List.mem_singleton.mp hr0] at hss
        simp at hss
  | claimStuck sid t =>
    simp only [step] at h
    split at h
    case isFalse => exact Option.noConfusion h
    case isTrue hg =>
      injection h with h
      subst h
      exact ⟨h7.succDisabled, h7.openEnabled, h7.openNotSucc, h7.uniqSucc⟩
  | forceClaim sid t =>
    simp [isForced] at hforce
  | finishOk sid t =>
    simp only [step] at h
    split at h
    case isFalse => exact Option.noConfusion h
    case isTrue hg =>
      obtain ⟨_hck, _hq, hex⟩ := hg
      rcases hex with ⟨rop, hrop, hropid, hropopen⟩
      by_cases honce : lookupType s.types sid = .once
      · rw [if_pos honce] at h
        injection h with h
        subst h
        have hen : sid ∈ s.enabledIds := by
          have := h7.openEnabled rop hrop hropopen (by rw [hropid]; exact honce)
          rwa [hropid] at this
        refine ⟨?_, ?_, ?_, ?_⟩
        · intro r' hr' htype _hsucc
          rcases List.mem_map.mp hr' with ⟨r, hr, rfl⟩
          rw [closeRecord_scheduleId] at htype ⊢
          by_cases hid : r.scheduleId = sid
          · rw [hid]
            intro hmem
            have := (List.mem_filter.mp hmem).2
            simp at this
          · rw [closeRecord_of_other_id sid t true none r hid] at _hsucc
            intro hmem
            exact h7.succDisabled r hr htype _hsucc (List.mem_filter.mp hmem).1
        · intro r' hr' hopen htype
          rcases List.mem_map.mp hr' with ⟨r, hr, rfl⟩
          obtain ⟨hro, hrid⟩ := closeRecord_open_iff sid t true none r hopen
          rw [closeRecord_scheduleId] at htype ⊢
          exact List.mem_filter.mpr ⟨h7.openEnabled r hr hro htype, by simpa using hrid⟩
        · intro r' hr' hopen
          rcases List.mem_map.mp hr' with ⟨r, hr, rfl⟩
          obtain ⟨hro, hrid⟩ := closeRecord_open_iff sid t true none r hopen
          rw [closeRecord_of_other_id sid t true none r hrid]
          exact h7.openNotSucc r hr hro
        · refine List.pairwise_map.mpr ?_
          refine (hinv.sep.and h7.uniqSucc).imp_of_mem ?_
          intro a b ha _hb hab
          obtain ⟨hsep, huniq⟩ := hab
          intro hid htype hss
          rw [closeRecord_scheduleId, closeRecord_scheduleId] at hid
          rw [closeRecord_scheduleId] at htype
          by_cases haid : a.scheduleId = sid
          · rcases hsep hid with ⟨e1, haend, _⟩
            have hclosea : closeRecord sid t true none a = a :=
              closeRecord_of_closed _ _ _ _ _ (by rw [haend]; exact Option.noConfusion)
            rw [hclosea] at hss
            have hdis : a.scheduleId ∉ s.enabledIds :=
              h7.succDisabled a ha htype hss.1
            exact hdis (haid ▸ hen)
          · have hbid : b.scheduleId ≠ sid := fun hb' => haid (hid.trans hb')
            rw [closeRecord_of_other_id sid t true none a haid,
              closeRecord_of_other_id sid t true none b hbid] at hss
            exact huniq hid htype hss
      · rw [if_neg honce] at h
        injection h with h
        subst h
        refine ⟨?_, ?_, ?_, ?_⟩
        · intro r' hr' htype hsucc
          rcases List.mem_map.mp hr' with ⟨r, hr, rfl⟩
          rw [closeRecord_scheduleId] at htype ⊢
          by_cases hid : r.scheduleId = sid
          · exact absurd (hid ▸ htype) honce
          · rw [closeRecord_of_other_id sid t true none r hid] at hsucc
            exact h7.succDisabled r hr htype hsucc
        · intro r' hr' hopen htype
          rcases List.mem_map.mp hr' with ⟨r, hr, rfl⟩
          obtain ⟨hro, hrid⟩ := closeRecord_open_iff sid t true none r hopen
          rw [closeRecord_scheduleId] at htype ⊢
          exact h7.openEnabled r hr hro htype
        · intro r' hr' hopen
          rcases List.mem_map.mp hr' with ⟨r, hr, rfl⟩
          obtain ⟨hro, hrid⟩ := closeRecord_open_iff sid t true none r hopen
          rw [closeRecord_of_other_id sid t true none r hrid]
          exact h7.openNotSucc r hr hro
        · refine List.pairwise_map.mpr ?_
          refine h7.uniqSucc.imp ?_
          intro a b huniq hid htype hss
          rw [closeRecord_scheduleId, closeRecord_scheduleId] at hid
          rw [closeRecord_scheduleId] at htype
          by_cases haid : a.scheduleId = sid
          · exact absurd (haid ▸ htype) honce
          · have hbid : b.scheduleId ≠ sid := fun hb' => haid (hid.trans hb')
            rw [closeRecord_of_other_id sid t true none a haid,
              closeRecord_of_other_id sid t true none b hbid] at hss
            exact huniq hid htype hss
  | finishErr sid msg t =>
    simp only [step] at h
    split at h
    case isFalse => exact Option.noConfusion h
    case isTrue hg =>
      injection h with h
      subst h
      refine ⟨?_, ?_, ?_, ?_⟩
      · intro r' hr' htype hsucc
        rcases List.mem_map.mp hr' with ⟨r, hr, rfl⟩
        rw [closeRecord_scheduleId] at htype ⊢
        by_cases hguard : r.scheduleId = sid ∧ r.endTime = none
        · rw [closeRecord_open_matching sid t false (some msg) r hguard.1 hguard.2] at hsucc
          simp at hsucc
        · rw [closeRecord_of_not_guard sid t false (some msg) r hguard] at hsucc
          exact h7.succDisabled r hr htype hsucc
      · intro r' hr' hopen htype
        rcases List.mem_map.mp hr' with ⟨r, hr, rfl⟩
        obtain ⟨hro, hrid⟩ := closeRecord_open_iff sid t false (some msg) r hopen
        rw [closeRecord_scheduleId] at htype ⊢
        exact h7.openEnabled r hr hro htype
      · intro r' hr' hopen
        rcases List.mem_map.mp hr' with ⟨r, hr, rfl⟩
        obtain ⟨hro, hrid⟩ := closeRecord_open_iff sid t false (some msg) r hopen
        rw [closeRecord_of_other_id sid t false (some msg) r hrid]
        exact h7.openNotSucc r hr hro
      · refine List.pairwise_map.mpr ?_
        refine h7.uniqSucc.imp ?_
        intro a b huniq hid htype hss
        rw [closeRecord_scheduleId, closeRecord_scheduleId] at hid
        rw [closeRecord_scheduleId] at htype
        have hsa : a.success = true := by
          by_cases hguard : a.scheduleId = sid ∧ a.endTime = none
          · rw [closeRecord_open_matching sid t false (some msg) a hguard.1 hguard.2] at hss
            exact absurd hss.1 (by simp)
          · rw [closeRecord_of_not_guard sid t false (some msg) a hguard] at hss
            exact hss.1
        have hsb : b.success = true := by
          by_cases hguard : b.scheduleId = sid ∧ b.endTime = none
          · rw [closeRecord_open_matching sid t false (some msg) b hguard.1 hguard.2] at hss
            exact absurd hss.2 (by simp)
          · rw [closeRecord_of_not_guard sid t false (some msg) b hguard] at hss
            exact hss.2
        exact huniq hid htype ⟨hsa, hsb⟩

theorem run_onceInv :
    ∀ (evs : List DispatchEvent) (s0 s : DispatchState),
      run s0 evs = some s → (∀ e ∈ evs, isForced e = false) →
      DispatchInv s0 → OnceInv s0 → OnceInv s := by
  intro evs
  induction evs with
  | nil =>
    intro s0 s hrun _ _ h7
    simp only [run] at hrun
    injection hrun with hrun
    exact hrun ▸ h7
  | cons e es ih =>
    intro s0 s hrun htick hinv h7
    simp only [run] at hrun
    cases hstep : step s0 e with
    | none => rw [hstep] at hrun; exact Option.noConfusion hrun
    | some s1 =>
      rw [hstep] at hrun
      exact ih s1 s hrun (fun e' he' => htick e' (List.mem_cons_of_mem _ he'))
        (step_dispatchInv hstep hinv)
        (step_onceInv hstep (htick e (List.mem_cons_self _ _)) hinv h7)

/-! ## Claim C7 theorem -/

/-- C7: along any tick-only (unforced) dispatcher trace, a schedule of kind
`once` owns at most one successful ExecutionRecord, and once a successful
record exists its enabled flag is false — it cannot fire again, because
every tick claim requires the id to be enabled. -/
theorem once_schedule_single_success (types : List (String × ScheduleType))
    (enabledIds : List String) (evs : List DispatchEvent) (s : DispatchState)
    (sid : String) (hrun : run (initState types enabledIds) evs = some s)
    (htick : ∀ e ∈ evs, isForced e = false)
    (honce : lookupType s.types sid = .once) :
    List.Pairwise
      (fun r1 r2 : ExecRecord => r1.scheduleId = sid → r2.scheduleId = sid →
        ¬(r1.success = true ∧ r2.success = true)) s.records ∧
    (∀ r ∈ s.records, r.scheduleId = sid → r.success = true →
      sid ∉ s.enabledIds) ∧
    (∀ r ∈ s.records, r.scheduleId = sid → r.success = true →
      ∀ t, step s (.claim sid t) = none ∧ step s (.claimStuck sid t) = none) := by
  have h7 := run_onceInv evs _ s hrun htick (dispatchInv_init types enabledIds)
    (onceInv_init types enabledIds)
  have hdis : ∀ r ∈ s.records, r.scheduleId = sid → r.success = true →
      sid ∉ s.enabledIds := by
    intro r hr hid hsucc
    have := h7.succDisabled r hr (by rw [hid]; exact honce) hsucc
    rwa [hid] at this
  refine ⟨?_, hdis, ?_⟩
  · refine h7.uniqSucc.imp ?_
    intro a b huniq h1 h2
    exact huniq (h1.trans h2.symm) (by rw [h1]; exact honce)
  · intro r hr hid hsucc t
    have hnen := hdis r hr hid hsucc
    constructor
    · simp only [step]
      rw [if_neg]
      intro hg
      exact hnen hg.2.1
    · simp only [step]
      rw [if_neg]
      intro hg
      exact hnen hg.2.1

/-- Witness for C7 on the concrete trace claim-finishOk of a single `once`
schedule "s": one successful record, the schedule disabled, further claims
refused. -/
theorem once_schedule_single_success_witness :
    List.Pairwise
      (fun r1 r2 : ExecRecord => r1.scheduleId = "s" → r2.scheduleId = "s" →
        ¬(r1.success = true ∧ r2.success = true))
      ([⟨"s", 1, some 2, true, none⟩] : List ExecRecord) ∧
    (∀ r ∈ ([⟨"s", 1, some 2, true, none⟩] : List ExecRecord),
      r.scheduleId = "s" → r.success = true →
      "s" ∉ ({ types := [("s", ScheduleType.once)], enabledIds := [],
               processingQueue := [], records := [⟨"s", 1, some 2, true, none⟩],
               clock := 2 } : DispatchState).enabledIds) ∧
    (∀ r ∈ ([⟨"s", 1, some 2, true, none⟩] : List ExecRecord),
      r.scheduleId = "s" → r.success = true →
      ∀ t,
        step { types := [("s", ScheduleType.once)], enabledIds := [],
               processingQueue := [], records := [⟨"s", 1, some 2, true, none⟩],
               clock := 2 } (.claim "s" t) = none ∧
        step { types := [("s", ScheduleType.once)], enabledIds := [],
               processingQueue := [], records := [⟨"s", 1, some 2, true, none⟩],
               clock := 2 } (.claimStuck "s" t) = none) :=
  once_schedule_single_success [("s", .once)] ["s"]
    [.claim "s" 1, .finishOk "s" 2]
    { types := [("s", ScheduleType.once)], enabledIds := [],
      processingQueue := [], records := [⟨"s", 1, some 2, true, none⟩],
      clock := 2 }
    "s" (by decide) (by decide) (by decide)

/-! ## Claim C9 theorems -/

/-- C9 counterexample: when `HistoryRepository.create` itself throws (the
`await` at popup.tsx line 394 sits before the `try`), `executeSchedule` has
already added the id to the processing queue and no `finally` runs: after
the `claimStuck` event for schedule "s", the id is still in the queue — it
was not removed — and no ExecutionRecord exists to be finalized, so the
schedule can never be claimed again, refuting "the execution is finalized
... and the schedule's id is removed ... so a schedule whose firing failed
can be claimed again on a later tick" for that throw point. -/
theorem claimStuck_leaves_id_claimed :
    run (initState [("s", ScheduleType.interval)] ["s"]) [.claimStuck "s" 1] =
      some { types := [("s", ScheduleType.interval)], enabledIds := ["s"],
             processingQueue := ["s"], records := [], clock := 1 } ∧
    "s" ∈ (["s"] : List String) ∧
    (∀ t, step { types := [("s", ScheduleType.interval)], enabledIds := ["s"],
                 processingQueue := ["s"], records := [], clock := 1 }
        (.claim "s" t) = none) := by
  refine ⟨by decide, by decide, ?_⟩
  intro t
  simp only [step]
  rw [if_neg]
  intro hg
  exact hg.2.2 (by decide)

/-- C9 (amended): an exception thrown inside `executeSchedule`'s try block —
after the ExecutionRecord was created — is finalized rather than left
dangling: the catch path closes the firing's open record with the end time,
`success = false` and the error message, afterwards no record of the
schedule is left open, the `finally` removes the id from the processing
queue, and a later tick can claim the schedule again; only an exception
from the record creation itself (before the try) escapes this, as the
counterexample shows. -/
theorem finishErr_finalizes_and_releases (st st' : DispatchState)
    (sid msg : String) (t : Int)
    (hstep : step st (.finishErr sid msg t) = some st') :
    sid ∉ st'.processingQueue ∧
    (∀ r ∈ st.records, r.scheduleId = sid → r.endTime = none →
      ({ r with
          endTime := some t
          success := false
          errorMessage := some msg } : ExecRecord) ∈ st'.records) ∧
    (∀ r ∈ st'.records, r.scheduleId = sid → r.endTime ≠ none) ∧
    (∀ t', st'.clock < t' → sid ∈ st'.enabledIds →
      (step st' (.claim sid t')).isSome = true) := by
  simp only [step] at hstep
  split at hstep
  case isFalse => exact Option.noConfusion hstep
  case isTrue hg =>
    injection hstep with hstep
    subst hstep
    have hnq : sid ∉ List.filter (fun x => decide (x ≠ sid)) st.processingQueue := by
      intro hmem
      have := (List.mem_filter.mp hmem).2
      simp at this
    refine ⟨hnq, ?_, ?_, ?_⟩
    · intro r hr hid hopen
      refine List.mem_map.mpr ⟨r, hr, ?_⟩
      exact closeRecord_open_matching sid t false (some msg) r hid hopen
    · intro r' hr' hid'
      rcases List.mem_map.mp hr' with ⟨r, hr, rfl⟩
      rw [closeRecord_scheduleId] at hid'
      intro hopen'
      exact (closeRecord_open_iff sid t false (some msg) r hopen').2 hid'
    · intro t' hck' hen'
      simp only [step]
      rw [if_pos ⟨hck', hen', hnq⟩]
      rfl

/-- Witness for C9's amended theorem: the catch path applied to the state in
which schedule "s" holds one open record. -/
theorem finishErr_finalizes_and_releases_witness :
    "s" ∉ ({ types := [("s", ScheduleType.interval)], enabledIds := ["s"],
             processingQueue := [],
             records := [⟨"s", 1, some 2, false, some "boom"⟩],
             clock := 2 } : DispatchState).processingQueue ∧
    (∀ r ∈ ([⟨"s", 1, none, false, none⟩] : List ExecRecord),
      r.scheduleId = "s" → r.endTime = none →
      ({ r with
          endTime := some 2
          success := false
          errorMessage := some "boom" } : ExecRecord) ∈
        ({ types := [("s", ScheduleType.interval)], enabledIds := ["s"],
           processingQueue := [],
           records := [⟨"s", 1, some 2, false, some "boom"⟩],
           clock := 2 } : DispatchState).records) ∧
    (∀ r ∈ ({ types := [("s", ScheduleType.interval)], enabledIds := ["s"],
              processingQueue := [],
              records := [⟨"s", 1, some 2, false, some "boom"⟩],
              clock := 2 } : DispatchState).records,
      r.scheduleId = "s" → r.endTime ≠ none) ∧
    (∀ t', ({ types := [("s", ScheduleType.interval)], enabledIds := ["s"],
              processingQueue := [],
              records := [⟨"s", 1, some 2, false, some "boom"⟩],
              clock := 2 } : DispatchState).clock < t' →
      "s" ∈ ({ types := [("s", ScheduleType.interval)], enabledIds := ["s"],
               processingQueue := [],
               records := [⟨"s", 1, some 2, false, some "boom"⟩],
               clock := 2 } : DispatchState).enabledIds →
      (step { types := [("s", ScheduleType.interval)], enabledIds := ["s"],
              processingQueue := [],
              records := [⟨"s", 1, some 2, false, some "boom"⟩],
              clock := 2 } (.claim "s" t')).isSome = true) :=
  finishErr_finalizes_and_releases
    { types := [("s", ScheduleType.interval)], enabledIds := ["s"],
      processingQueue := ["s"],
      records := [⟨"s", 1, none, false, none⟩], clock := 1 }
    { types := [("s", ScheduleType.interval)], enabledIds := ["s"],
      processingQueue := [],
      records := [⟨"s", 1, some 2, false, some "boom"⟩],
      clock := 2 }
    "s" "boom" 2 (by decide)
